import Mathlib

/-!
# Verification of the asset-upload core of `fast-cf-pages-upload-action`

This file gives a shallow embedding, in Lean 4, of the asset-synchronization
core found in the repository's upload module (the TypeScript file containing
`findUploadableFiles`, `cfApiRequest` and `upload`), and proves or refutes the
frozen specification claims about it.

Modelling conventions:
* Byte contents are `List Nat` (each entry one byte); file sizes are `Nat`.
* The BLAKE3 hash (`blake3(..., { dkLen: 16 })`, hex-encoded) is treated as an
  uninterpreted function parameter `blake3hex : String → String`: the claims
  about the fingerprint concern only the pre-hash material
  (`base64(contents) ++ extensionWithoutDot`), never the internals of BLAKE3,
  and the spec itself allows any hash of comparable collision resistance.
  Likewise the `mime-types` lookup table is a parameter
  `mimeLk : String → Option String` (`lookup(p) || "application/octet-stream"`).
* `fetch` responses are modelled by their status, body text and parsed
  `result`; `response.ok` is the 2xx test, as in the WHATWG fetch standard.
* Fallible file reads are `Except String String` values (error payload is the
  I/O error's description); the `try { ... } catch { }` blocks around the
  optional `_redirects` / `_headers` reads become total functions on those
  `Except` values.
-/

namespace FastCFPages

/-- The `UploadableFile` interface of the source: one record per scanned file. -/
structure UploadableFile where
  absolutePath : String
  size : Nat
  mime : String
  hash : String
  publicUrl : String
deriving Repr, DecidableEq

/-- One upload bucket: a running byte total plus the files placed in it
(`{ size: 0, files: [] }` objects built during the `reduce`). -/
structure Bucket where
  size : Nat
  files : List UploadableFile
deriving Repr, DecidableEq

instance : Inhabited Bucket := ⟨⟨0, []⟩⟩

/-! ## Content scanner (`findUploadableFiles`) -/

/-- The `ignoredFiles` set of the source: reserved names excluded from the scan. -/
def ignoredFiles : List String := ["_worker.js", "_redirects", "_headers", "_routes.json"]

/-- One entry of the recursive `readdir` listing: the directory components
below the scan root, the entry name, whether it is a regular file, and (for
files) its byte content.  `stat` reports `content.length` bytes for a file. -/
structure DirEntry where
  path : List String
  name : String
  isFile : Bool
  content : List Nat
deriving Repr, DecidableEq

/-- The RFC 4648 base64 alphabet used by `Buffer.toString("base64")`. -/
def base64Chars : List Char :=
  "ABCDEFGHIJKLMNOPQRSTUVWXYZabcdefghijklmnopqrstuvwxyz0123456789+/".data

/-- `Buffer.from(bytes).toString("base64")`: standard padded base64. -/
def base64Encode : List Nat → String
  | [] => ""
  | [b1] =>
    ⟨[base64Chars.getD (b1 / 4) '?', base64Chars.getD (b1 % 4 * 16) '?', '=', '=']⟩
  | [b1, b2] =>
    ⟨[base64Chars.getD (b1 / 4) '?', base64Chars.getD (b1 % 4 * 16 + b2 / 16) '?',
      base64Chars.getD (b2 % 16 * 4) '?', '=']⟩
  | b1 :: b2 :: b3 :: rest =>
    (⟨[base64Chars.getD (b1 / 4) '?', base64Chars.getD (b1 % 4 * 16 + b2 / 16) '?',
       base64Chars.getD (b2 % 16 * 4 + b3 / 64) '?', base64Chars.getD (b3 % 64) '?']⟩ : String)
      ++ base64Encode rest

/-- Index of the last `'.'` in a file name, if any. -/
def lastDotIndex (cs : List Char) : Option Nat :=
  ((List.range cs.length).filter (fun i => cs.getD i ' ' == '.')).getLast?

/-- `extname(name).slice(1)`: the extension without its dot.  Node's `extname`
returns `""` when the base name has no dot or only a leading dot, and returns
just `"."` (hence `""` after `slice(1)`) for a trailing dot. -/
def extnameWithoutDot (name : String) : String :=
  match lastDotIndex name.data with
  | some i => if i = 0 then "" else ⟨name.data.drop (i + 1)⟩
  | none => ""

/-- The material that is hashed for a file:
`(await readFile(p)).toString("base64") + extname(p).slice(1)`. -/
def hashData (content : List Nat) (ext : String) : String :=
  base64Encode content ++ ext

/-- `Buffer.from(blake3(hashData, { dkLen: 16 })).toString("hex")`, with the
hex-encoded 16-byte BLAKE3 digest abstracted as `blake3hex`. -/
def fingerprint (blake3hex : String → String) (content : List Nat) (ext : String) : String :=
  blake3hex (hashData content ext)

/-- `resolve(resolvedDir, file.path, file.name)`. -/
def absolutePathOf (root : String) (e : DirEntry) : String :=
  root ++ "/" ++ String.intercalate "/" (e.path ++ [e.name])

/-- `"/" + relative(resolvedDir, absolutePath).split(sep).join(posixSep)`. -/
def publicUrlOf (e : DirEntry) : String :=
  "/" ++ String.intercalate "/" (e.path ++ [e.name])

/-- The record built for one retained `readdir` entry (body of the `map` in
`findUploadableFiles`). -/
def recordOf (blake3hex : String → String) (mimeLk : String → Option String)
    (root : String) (e : DirEntry) : UploadableFile :=
  { absolutePath := absolutePathOf root e
    size := e.content.length
    mime := (mimeLk (absolutePathOf root e)).getD "application/octet-stream"
    hash := fingerprint blake3hex e.content (extnameWithoutDot e.name)
    publicUrl := publicUrlOf e }

/-- `findUploadableFiles`: keep regular files, drop reserved names, build a
record for each remaining entry. -/
def findUploadableFiles (blake3hex : String → String) (mimeLk : String → Option String)
    (root : String) (entries : List DirEntry) : List UploadableFile :=
  ((entries.filter (·.isFile)).filter (fun e => !ignoredFiles.contains e.name)).map
    (recordOf blake3hex mimeLk root)

/-! ## Remote-store request helper (`cfApiRequest`)

Every remote call of the source — project info, upload token, check-missing,
bucket upload, upsert-hashes and create-deployment — goes through this one
helper, so its error behaviour covers all six requests. -/

/-- A `fetch` response: HTTP status, body text, and the parsed `result` field
(only meaningful when the request succeeded). -/
structure ApiResponse (Result : Type) where
  status : Nat
  bodyText : String
  result : Result

/-- `Response.ok` of the fetch standard: status in the 2xx range. -/
def responseOk (status : Nat) : Bool :=
  decide (200 ≤ status) && decide (status ≤ 299)

/-- `cfApiRequest`: on a non-ok response, throw
`` `Cloudflare API request failed with status ${status}: ${text}` ``;
otherwise return `json.result`. -/
def cfApiRequest {Result : Type} (resp : ApiResponse Result) : Except String Result :=
  if responseOk resp.status then
    .ok resp.result
  else
    .error ("Cloudflare API request failed with status " ++ toString resp.status ++ ": "
      ++ resp.bodyText)

/-! ## Bucket packer (the `reduce` inside `upload`) -/

/-- `50 * 1024 * 1024`, the per-bucket byte cap of the source. -/
def maxBucketBytes : Nat := 50 * 1024 * 1024

/-- `5000`, the per-bucket item bound appearing in the source's check. -/
def maxBucketItems : Nat := 5000

/-- The acceptance test of the source:
`(bucket.size + file.size) <= 50 * 1024 * 1024 && bucket.files.length <= 5000`. -/
def bucketAccepts (b : Bucket) (f : UploadableFile) : Bool :=
  decide (b.size + f.size ≤ maxBucketBytes) && decide (b.files.length ≤ maxBucketItems)

/-- `Array(n).fill(0).map((_, j) => j).find(...)`: the first `j < buckets.length`
such that the bucket at index `(i + j) % buckets.length` accepts the file. -/
def findSlot (buckets : List Bucket) (f : UploadableFile) (i : Nat) : Option Nat :=
  (List.range buckets.length).find?
    (fun j => bucketAccepts (buckets.getD ((i + j) % buckets.length) default) f)

/-- One step of the packing `reduce`: place file `f` (the `i`-th file) either
into the found bucket (`bucket.files.push(file); bucket.size += file.size`) or,
when no bucket accepts it (`find` returns `undefined`, so the indexed lookup
yields no bucket), into a freshly appended bucket. -/
def addFile (buckets : List Bucket) (i : Nat) (f : UploadableFile) : List Bucket :=
  match findSlot buckets f i with
  | some j =>
    let k := (i + j) % buckets.length
    let b := buckets.getD k default
    buckets.set k { size := b.size + f.size, files := b.files ++ [f] }
  | none => buckets ++ [{ size := f.size, files := [f] }]

/-- The `reduce` callback, taking the `(file, index)` pair of the traversal. -/
def stepF (buckets : List Bucket) (p : Nat × UploadableFile) : List Bucket :=
  addFile buckets p.1 p.2

/-- `Array(3).fill(null).map(() => ({ files: [], size: 0 }))`. -/
def initialBuckets : List Bucket := List.replicate 3 ⟨0, []⟩

/-- The whole packing `reduce` over the to-upload list. -/
def packBuckets (files : List UploadableFile) : List Bucket :=
  files.enum.foldl stepF initialBuckets

/-! ## The `upload` pipeline around the packer -/

/-- `.sort((a, b) => b.size - a.size)`: stable sort by descending size. -/
def sortBySizeDesc (files : List UploadableFile) : List UploadableFile :=
  files.mergeSort (fun a b => decide (b.size ≤ a.size))

/-- `files.filter(file => missingHashes.includes(file.hash)).sort(...)`. -/
def filesToUpload (files : List UploadableFile) (missingHashes : List String) :
    List UploadableFile :=
  sortBySizeDesc (files.filter (fun f => missingHashes.contains f.hash))

/-- The buckets handed to the uploader for a given scan result and
check-missing answer. -/
def uploadBuckets (files : List UploadableFile) (missingHashes : List String) : List Bucket :=
  packBuckets (filesToUpload files missingHashes)

/-- `.filter(el => el.files.length > 0)`: only non-empty buckets are uploaded. -/
def nonEmptyBuckets (files : List UploadableFile) (missingHashes : List String) : List Bucket :=
  (uploadBuckets files missingHashes).filter (fun b => decide (0 < b.files.length))

/-- `files.map(file => [file.publicUrl, file.hash])`: the manifest's entry list. -/
def manifestPairs (files : List UploadableFile) : List (String × String) :=
  files.map (fun f => (f.publicUrl, f.hash))

/-- One assignment `obj[k] = v` of `Object.fromEntries`: update the value in
place if the key exists (keeping first-insertion order), else append. -/
def setEntry (m : List (String × String)) (k v : String) : List (String × String) :=
  if m.any (fun q => q.1 == k) then
    m.map (fun q => if q.1 == k then (k, v) else q)
  else
    m ++ [(k, v)]

/-- `Object.fromEntries(pairs)` as an insertion-ordered association list. -/
def fromEntries (ps : List (String × String)) : List (String × String) :=
  ps.foldl (fun m p => setEntry m p.1 p.2) []

/-- The manifest object serialized into the deployment form. -/
def manifestObject (files : List UploadableFile) : List (String × String) :=
  fromEntries (manifestPairs files)

/-- The git metadata attached to the deployment. -/
structure GitData where
  branch : String
  commit : String
  commitMessage : String

/-- One field of the multipart `FormData`. -/
structure FormField where
  name : String
  value : String
deriving Repr, DecidableEq

/-- Appending one optional control file: `try { read; append } catch { }` —
on any read error the field is simply not appended. -/
def appendOptionalFile (form : List FormField) (fieldName : String)
    (readResult : Except String String) : List FormField :=
  match readResult with
  | .ok contents => form ++ [⟨fieldName, contents⟩]
  | .error _ => form

/-- The five unconditional fields of the deployment form. -/
def baseDeploymentFields (manifestJson : String) (g : GitData) : List FormField :=
  [⟨"manifest", manifestJson⟩, ⟨"branch", g.branch⟩, ⟨"commit_hash", g.commit⟩,
   ⟨"commit_message", g.commitMessage⟩, ⟨"commit_dirty", "false"⟩]

/-- The full deployment `FormData`, given the outcomes of the two optional
control-file reads. -/
def buildDeploymentForm (manifestJson : String) (g : GitData)
    (redirectsRead headersRead : Except String String) : List FormField :=
  appendOptionalFile
    (appendOptionalFile (baseDeploymentFields manifestJson g) "_redirects" redirectsRead)
    "_headers" headersRead

/-! ## Auxiliary definitions for the verification -/

/-- The bucket invariant maintained by the packing loop: the `size` field is
the sum of the member files' sizes, and it stays under the byte cap. -/
def GoodBucket (b : Bucket) : Prop :=
  b.size = (b.files.map (·.size)).sum ∧ b.size ≤ maxBucketBytes

/-- A 1-byte file, used in concrete packing scenarios. -/
def smallFile : UploadableFile :=
  { absolutePath := "/site/s.bin", size := 1, mime := "application/octet-stream",
    hash := "hs", publicUrl := "/s.bin" }

/-- A file of exactly the 50 MiB cap. -/
def bigFileA : UploadableFile :=
  { absolutePath := "/site/a.bin", size := maxBucketBytes, mime := "application/octet-stream",
    hash := "ha", publicUrl := "/a.bin" }

/-- A second file of exactly the 50 MiB cap. -/
def bigFileB : UploadableFile :=
  { absolutePath := "/site/b.bin", size := maxBucketBytes, mime := "application/octet-stream",
    hash := "hb", publicUrl := "/b.bin" }

/-- A bucket filled to exactly the byte cap by `bigFileA`. -/
def fullA : Bucket := { size := maxBucketBytes, files := [bigFileA] }

/-- A bucket filled to exactly the byte cap by `bigFileB`. -/
def fullB : Bucket := { size := maxBucketBytes, files := [bigFileB] }

/-- A to-upload list (already in descending size order, as the `sort` leaves
it) on which one bucket collects 5001 files: the two cap-sized files occupy
buckets 0 and 1, and every subsequent 1-byte file can then only fit into
bucket 2. -/
def overflowInput : List UploadableFile :=
  bigFileA :: bigFileB :: List.replicate 5001 smallFile

/-- A single file strictly larger than the 50 MiB cap. -/
def oversizedFile : UploadableFile :=
  { absolutePath := "/site/video.bin", size := 52428801, mime := "application/octet-stream",
    hash := "hv", publicUrl := "/video.bin" }

/-- A directory entry `images/logo.png` with two content bytes. -/
def demoEntry1 : DirEntry :=
  { path := ["images"], name := "logo.png", isFile := true, content := [137, 80] }

/-- An entry with the same bytes and extension as `demoEntry1`, but elsewhere
in the tree and under another name. -/
def demoEntry2 : DirEntry :=
  { path := ["assets", "img"], name := "copy.png", isFile := true, content := [137, 80] }

/-- Two scanned files with distinct public paths, one already known remotely. -/
def demoScan : List UploadableFile :=
  [{ absolutePath := "/d/index.html", size := 5, mime := "text/html",
     hash := "h1", publicUrl := "/index.html" },
   { absolutePath := "/d/app.js", size := 9, mime := "application/javascript",
     hash := "h2", publicUrl := "/app.js" }]

/-- A check-missing answer reporting only `h2` as absent remotely. -/
def demoMissing : List String := ["h2"]

/-- Two scanned files with identical fingerprints but distinct public paths. -/
def demoDup : List UploadableFile :=
  [{ absolutePath := "/d/x/f.txt", size := 4, mime := "text/plain",
     hash := "hdup", publicUrl := "/x/f.txt" },
   { absolutePath := "/d/y/f.txt", size := 4, mime := "text/plain",
     hash := "hdup", publicUrl := "/y/f.txt" }]

/-- A failed remote response: HTTP 404 with a diagnostic body. -/
def demoResp404 : ApiResponse Nat := { status := 404, bodyText := "not found", result := 0 }

/-- A `_redirects` entry sitting two directories deep in the tree. -/
def demoReservedEntry : DirEntry :=
  { path := ["sub", "dir"], name := "_redirects", isFile := true, content := [10] }

/-! ## Packer invariant lemmas -/

lemma findSlot_pos {bs : List Bucket} {f : UploadableFile} {i j : Nat}
    (h : findSlot bs f i = some j) : 0 < bs.length := by
  rcases Nat.eq_zero_or_pos bs.length with h0 | h0
  · rw [findSlot, h0] at h
    simp at h
  · exact h0

lemma findSlot_accepts {bs : List Bucket} {f : UploadableFile} {i j : Nat}
    (h : findSlot bs f i = some j) :
    bucketAccepts (bs.getD ((i + j) % bs.length) default) f = true := by
  rw [findSlot] at h
  simpa using List.find?_some h

lemma getD_eq_getElem_of_lt {bs : List Bucket} {k : Nat} (hk : k < bs.length) :
    bs.getD k default = bs[k] := by
  simp [List.getD_eq_getElem?_getD, List.getElem?_eq_getElem hk]

lemma addFile_good {bs : List Bucket} {i : Nat} {f : UploadableFile}
    (hf : f.size ≤ maxBucketBytes) (hbs : ∀ b ∈ bs, GoodBucket b) :
    ∀ b ∈ addFile bs i f, GoodBucket b := by
  intro b hb
  rw [addFile] at hb
  cases hfind : findSlot bs f i with
  | none =>
    rw [hfind] at hb
    simp only [List.mem_append, List.mem_singleton] at hb
    rcases hb with hb | hb
    · exact hbs b hb
    · subst hb
      exact ⟨by simp, by simpa using hf⟩
  | some j =>
    rw [hfind] at hb
    simp only at hb
    have hk : (i + j) % bs.length < bs.length := Nat.mod_lt _ (findSlot_pos hfind)
    have hacc := findSlot_accepts hfind
    rw [getD_eq_getElem_of_lt hk] at hacc hb
    rcases List.mem_or_eq_of_mem_set hb with hmem | heq
    · exact hbs b hmem
    · subst heq
      have hgood := hbs _ (List.getElem_mem hk)
      rw [bucketAccepts, Bool.and_eq_true, decide_eq_true_eq, decide_eq_true_eq] at hacc
      exact ⟨by simp [hgood.1], hacc.1⟩

lemma foldl_good : ∀ (pairs : List (Nat × UploadableFile)) (bs : List Bucket),
    (∀ b ∈ bs, GoodBucket b) → (∀ p ∈ pairs, p.2.size ≤ maxBucketBytes) →
    ∀ b ∈ pairs.foldl stepF bs, GoodBucket b := by
  intro pairs
  induction pairs with
  | nil => intro bs hbs _; simpa using hbs
  | cons p rest ih =>
    intro bs hbs hp
    rw [List.foldl_cons]
    exact ih _ (addFile_good (hp p (by simp)) hbs) (fun q hq => hp q (by simp [hq]))

lemma initialBuckets_good : ∀ b ∈ initialBuckets, GoodBucket b := by
  intro b hb
  have := List.eq_of_mem_replicate hb
  subst this
  exact ⟨rfl, by simp [maxBucketBytes]⟩

lemma snd_mem_of_mem_enumFrom {α : Type} :
    ∀ (l : List α) (n : Nat) (p : Nat × α), p ∈ l.enumFrom n → p.2 ∈ l := by
  intro l
  induction l with
  | nil => simp
  | cons a t ih =>
    intro n p hp
    rw [List.enumFrom_cons, List.mem_cons] at hp
    rcases hp with hp | hp
    · subst hp; simp
    · exact List.mem_cons_of_mem _ (ih _ _ hp)

lemma snd_mem_of_mem_enum {α : Type} {l : List α} {p : Nat × α} (hp : p ∈ l.enum) :
    p.2 ∈ l :=
  snd_mem_of_mem_enumFrom l 0 p hp

/-- C1: if every input file fits under the 50 MiB cap individually, then at
every intermediate state of the packing fold (every decomposition
`files.enum = pre ++ post`) and in the final output, every bucket's file-size
sum is at most `maxBucketBytes`. -/
theorem packer_byte_cap (files : List UploadableFile)
    (hsz : ∀ f ∈ files, f.size ≤ maxBucketBytes) :
    (∀ pre post, files.enum = pre ++ post →
      ∀ b ∈ pre.foldl stepF initialBuckets,
        (b.files.map (fun f => f.size)).sum ≤ maxBucketBytes)
    ∧ ∀ b ∈ packBuckets files, (b.files.map (fun f => f.size)).sum ≤ maxBucketBytes := by
  have haux : ∀ pre post, files.enum = pre ++ post →
      ∀ b ∈ pre.foldl stepF initialBuckets,
        (b.files.map (fun f => f.size)).sum ≤ maxBucketBytes := by
    intro pre post hsplit b hb
    have hpairs : ∀ p ∈ pre, p.2.size ≤ maxBucketBytes := by
      intro p hp
      have hmem : p ∈ files.enum := by
        rw [hsplit]
        exact List.mem_append_left _ hp
      exact hsz _ (snd_mem_of_mem_enum hmem)
    have hgood := foldl_good pre initialBuckets initialBuckets_good hpairs b hb
    rw [← hgood.1]
    exact hgood.2
  refine ⟨haux, ?_⟩
  intro b hb
  exact haux files.enum [] (by simp) b hb

/-- Witness for C1 at a concrete input: the bucket that `packBuckets` builds
for a single 1-byte file respects the byte cap. -/
theorem packer_byte_cap_witness :
    ((Bucket.mk 1 [smallFile]).files.map (fun f => f.size)).sum ≤ maxBucketBytes :=
  (packer_byte_cap [smallFile]
      (by intro f hf; simp at hf; subst hf; decide)).2
    (Bucket.mk 1 [smallFile]) (by decide)

/-! ## Fingerprint properties -/

/-- C4: the fingerprint the scanner assigns to a file is a function of its
byte content and its extension only — two entries with identical bytes and
identical extension receive the same hash regardless of scan root, directory
or file name; and any retained regular entry's record does appear in the
scanner output.  The 16-byte hex digest itself is the uninterpreted
`blake3hex` parameter, applied to `base64(content) ++ extension`. -/
theorem fingerprint_path_independent (blake3hex : String → String)
    (mimeLk : String → Option String) (root1 root2 : String) (e1 e2 : DirEntry)
    (hc : e1.content = e2.content)
    (he : extnameWithoutDot e1.name = extnameWithoutDot e2.name) :
    (recordOf blake3hex mimeLk root1 e1).hash = (recordOf blake3hex mimeLk root2 e2).hash
    ∧ ∀ entries : List DirEntry, e1 ∈ entries → e1.isFile = true →
        ignoredFiles.contains e1.name = false →
        recordOf blake3hex mimeLk root1 e1 ∈ findUploadableFiles blake3hex mimeLk root1 entries := by
  constructor
  · simp only [recordOf, fingerprint, hashData, hc, he]
  · intro entries hmem hfile hig
    rw [findUploadableFiles]
    exact List.mem_map_of_mem _
      (List.mem_filter.2 ⟨List.mem_filter.2 ⟨hmem, hfile⟩, by rw [hig]; rfl⟩)

/-- Witness for C4: two identical `.png` files in different directories get
the same hash, and the first one's record is produced by the scanner. -/
theorem fingerprint_path_independent_witness :
    (recordOf (fun s => s) (fun _ => none) "/work/dist" demoEntry1).hash
      = (recordOf (fun s => s) (fun _ => none) "/other/root" demoEntry2).hash
    ∧ recordOf (fun s => s) (fun _ => none) "/work/dist" demoEntry1
        ∈ findUploadableFiles (fun s => s) (fun _ => none) "/work/dist" [demoEntry1, demoEntry2] :=
  ⟨(fingerprint_path_independent (fun s => s) (fun _ => none) "/work/dist" "/other/root"
      demoEntry1 demoEntry2 (by decide) (by decide)).1,
   (fingerprint_path_independent (fun s => s) (fun _ => none) "/work/dist" "/other/root"
      demoEntry1 demoEntry2 (by decide) (by decide)).2 [demoEntry1, demoEntry2]
      (by simp) (by decide) (by decide)⟩

/-- C5: for identical content but different extensions the pre-hash material
differs (the extension is appended to the base64-encoded content), so under
the claim's collision-freeness assumption on the hash the fingerprints
differ. -/
theorem fingerprint_ext_sensitive (blake3hex : String → String) (c : List Nat)
    (e1 e2 : String) (hne : e1 ≠ e2)
    (hcf : blake3hex (hashData c e1) = blake3hex (hashData c e2) →
      hashData c e1 = hashData c e2) :
    hashData c e1 ≠ hashData c e2
    ∧ fingerprint blake3hex c e1 ≠ fingerprint blake3hex c e2 := by
  have hd : hashData c e1 ≠ hashData c e2 := by
    intro h
    apply hne
    rw [hashData, hashData] at h
    have h2 := congrArg String.data h
    rw [String.data_append, String.data_append] at h2
    exact String.ext (List.append_cancel_left h2)
  exact ⟨hd, fun h => hd (hcf h)⟩

/-- Witness for C5 at concrete content and the extensions `png` / `txt`. -/
theorem fingerprint_ext_sensitive_witness :
    hashData [1, 2, 3] "png" ≠ hashData [1, 2, 3] "txt"
    ∧ fingerprint (fun s => s) [1, 2, 3] "png" ≠ fingerprint (fun s => s) [1, 2, 3] "txt" :=
  fingerprint_ext_sensitive (fun s => s) [1, 2, 3] "png" "txt" (by decide) (fun h => h)

/-- C7: inserting an entry carrying one of the reserved names (`_worker.js`,
`_redirects`, `_headers`, `_routes.json`) anywhere into the listing leaves the
scanner output — and hence the manifest entry list built from it — unchanged:
no record is produced for such an entry, at any directory depth. -/
theorem reserved_names_excluded (blake3hex : String → String)
    (mimeLk : String → Option String) (root : String)
    (es1 es2 : List DirEntry) (e : DirEntry)
    (hres : ignoredFiles.contains e.name = true) :
    findUploadableFiles blake3hex mimeLk root (es1 ++ e :: es2)
      = findUploadableFiles blake3hex mimeLk root (es1 ++ es2)
    ∧ manifestPairs (findUploadableFiles blake3hex mimeLk root (es1 ++ e :: es2))
      = manifestPairs (findUploadableFiles blake3hex mimeLk root (es1 ++ es2)) := by
  have h1 : findUploadableFiles blake3hex mimeLk root (es1 ++ e :: es2)
      = findUploadableFiles blake3hex mimeLk root (es1 ++ es2) := by
    rw [findUploadableFiles, findUploadableFiles]
    have hmem : e.name ∈ ignoredFiles := by simpa using hres
    by_cases hf : e.isFile
    · simp [List.filter_append, List.filter_cons, hf, hmem]
    · simp [List.filter_append, List.filter_cons, hf]
  exact ⟨h1, by rw [h1]⟩

/-- Witness for C7: a `_redirects` entry deep in the tree produces no record. -/
theorem reserved_names_excluded_witness :
    findUploadableFiles (fun s => s) (fun _ => none) "/work/dist"
        ([demoEntry1] ++ demoReservedEntry :: [demoEntry2])
      = findUploadableFiles (fun s => s) (fun _ => none) "/work/dist" ([demoEntry1] ++ [demoEntry2])
    ∧ manifestPairs (findUploadableFiles (fun s => s) (fun _ => none) "/work/dist"
        ([demoEntry1] ++ demoReservedEntry :: [demoEntry2]))
      = manifestPairs (findUploadableFiles (fun s => s) (fun _ => none) "/work/dist"
        ([demoEntry1] ++ [demoEntry2])) :=
  reserved_names_excluded (fun s => s) (fun _ => none) "/work/dist" [demoEntry1] [demoEntry2]
    demoReservedEntry (by decide)

/-! ## Remote request error handling -/

/-- C8: every remote-store call goes through `cfApiRequest`, and on a non-2xx
response that helper produces the fatal error message
`Cloudflare API request failed with status <status>: <body>` — carrying the
status and the response body — and returns no result. -/
theorem api_error_carries_diagnostics {Result : Type} (resp : ApiResponse Result)
    (hko : responseOk resp.status = false) :
    cfApiRequest resp = .error ("Cloudflare API request failed with status "
      ++ toString resp.status ++ ": " ++ resp.bodyText)
    ∧ ∀ r : Result, cfApiRequest resp ≠ .ok r := by
  rw [cfApiRequest, hko]
  exact ⟨by simp, by simp⟩

/-- Witness for C8: a 404 response with body `not found`. -/
theorem api_error_carries_diagnostics_witness :
    cfApiRequest demoResp404
      = .error "Cloudflare API request failed with status 404: not found"
    ∧ cfApiRequest demoResp404 ≠ .ok 0 :=
  ⟨((api_error_carries_diagnostics demoResp404 (by decide)).1).trans (by rfl),
   (api_error_carries_diagnostics demoResp404 (by decide)).2 0⟩

/-- C9: every failure of the optional `_redirects` / `_headers` reads is
swallowed identically: whatever the error, the form built is the same (so a
permission error or a directory named `_redirects` behaves exactly like an
absent file), and when both reads fail the submitted form is exactly the five
base fields — in particular it carries no `_redirects` or `_headers` field —
and the deployment form is still produced (the builder is total, no error
escapes). -/
theorem optional_reads_swallowed (manifestJson : String) (g : GitData)
    (e1 e2 e3 : String) (headersRead : Except String String) :
    buildDeploymentForm manifestJson g (.error e1) headersRead
      = buildDeploymentForm manifestJson g (.error e2) headersRead
    ∧ buildDeploymentForm manifestJson g (.error e1) (.error e3)
      = baseDeploymentFields manifestJson g
    ∧ (buildDeploymentForm manifestJson g (.error e1) (.error e3)).map (fun f => f.name)
      = ["manifest", "branch", "commit_hash", "commit_message", "commit_dirty"] := by
  refine ⟨rfl, rfl, rfl⟩

/-! ## Packer conservation: the buckets hold exactly the input files -/

lemma flatMap_set_perm : ∀ (bs : List Bucket) (k : Nat) (f : UploadableFile),
    k < bs.length →
    ((bs.set k { size := (bs.getD k default).size + f.size,
                 files := (bs.getD k default).files ++ [f] }).flatMap (·.files)).Perm
      (f :: bs.flatMap (·.files)) := by
  intro bs
  induction bs with
  | nil => intro k f hk; simp at hk
  | cons b t ih =>
    intro k f hk
    cases k with
    | zero =>
      simp only [List.set_cons_zero, List.getD_cons_zero, List.flatMap_cons]
      have he : (b.files ++ [f]) ++ t.flatMap (·.files)
          = b.files ++ f :: t.flatMap (·.files) := by simp
      rw [he]
      exact List.perm_middle
    | succ k =>
      simp only [List.set_cons_succ, List.getD_cons_succ, List.flatMap_cons]
      have hk' : k < t.length := by simpa using hk
      exact ((ih k f hk').append_left b.files).trans List.perm_middle

lemma addFile_flatMap_perm (bs : List Bucket) (i : Nat) (f : UploadableFile) :
    ((addFile bs i f).flatMap (·.files)).Perm (f :: bs.flatMap (·.files)) := by
  rw [addFile]
  cases hfind : findSlot bs f i with
  | none =>
    simp only [List.flatMap_append, List.flatMap_cons, List.flatMap_nil, List.append_nil]
    exact List.perm_append_comm.trans (by simp)
  | some j =>
    exact flatMap_set_perm bs _ f (Nat.mod_lt _ (findSlot_pos hfind))

lemma foldl_flatMap_perm : ∀ (pairs : List (Nat × UploadableFile)) (bs : List Bucket),
    ((pairs.foldl stepF bs).flatMap (·.files)).Perm
      (bs.flatMap (·.files) ++ pairs.map (fun p => p.2)) := by
  intro pairs
  induction pairs with
  | nil => intro bs; simp
  | cons p rest ih =>
    intro bs
    rw [List.foldl_cons, List.map_cons]
    have h1 := ih (stepF bs p)
    have h2 : ((stepF bs p).flatMap (·.files) ++ rest.map (fun q => q.2)).Perm
        ((p.2 :: bs.flatMap (·.files)) ++ rest.map (fun q => q.2)) :=
      (addFile_flatMap_perm bs p.1 p.2).append_right _
    have h3 : ((p.2 :: bs.flatMap (·.files)) ++ rest.map (fun q => q.2)).Perm
        (bs.flatMap (·.files) ++ p.2 :: rest.map (fun q => q.2)) := by
      simpa using (@List.perm_middle _ p.2 (bs.flatMap (·.files))
        (rest.map (fun q => q.2))).symm
    exact (h1.trans h2).trans h3

lemma enumFrom_map_snd {α : Type} : ∀ (l : List α) (n : Nat),
    (l.enumFrom n).map (fun p => p.2) = l := by
  intro l
  induction l with
  | nil => intro n; rfl
  | cons a t ih => intro n; simp [List.enumFrom_cons, ih]

lemma packBuckets_flatMap_perm (files : List UploadableFile) :
    ((packBuckets files).flatMap (·.files)).Perm files := by
  have h := foldl_flatMap_perm files.enum initialBuckets
  rw [packBuckets]
  have h2 : initialBuckets.flatMap (·.files) = [] := rfl
  rw [h2] at h
  simpa [List.enum, enumFrom_map_snd] using h

lemma flatMap_filter_nonEmpty (bs : List Bucket) :
    (bs.filter (fun b => decide (0 < b.files.length))).flatMap (·.files)
      = bs.flatMap (·.files) := by
  induction bs with
  | nil => rfl
  | cons b t ih =>
    by_cases hb : 0 < b.files.length
    · simp [List.filter_cons, hb, ih]
    · have hnil : b.files = [] := by
        have h0 : b.files.length = 0 := by omega
        simpa using h0
      simp [List.filter_cons, hb, ih, hnil]

lemma uploadBuckets_flatMap_perm (files : List UploadableFile) (missing : List String) :
    ((uploadBuckets files missing).flatMap (·.files)).Perm
      (files.filter (fun f => missing.contains f.hash)) := by
  rw [uploadBuckets]
  exact (packBuckets_flatMap_perm _).trans
    (by rw [filesToUpload, sortBySizeDesc]; exact List.mergeSort_perm _ _)

/-! ## `Object.fromEntries` on duplicate-free keys -/

lemma fromEntries_go : ∀ (ps acc : List (String × String)),
    (∀ p ∈ ps, ∀ q ∈ acc, q.1 ≠ p.1) → (ps.map Prod.fst).Nodup →
    ps.foldl (fun m p => setEntry m p.1 p.2) acc = acc ++ ps := by
  intro ps
  induction ps with
  | nil => intro acc _ _; simp
  | cons p rest ih =>
    intro acc hdisj hnd
    rw [List.foldl_cons]
    have hany : acc.any (fun q => q.1 == p.1) = false := by
      rw [List.any_eq_false]
      intro q hq
      simpa using hdisj p (by simp) q hq
    have hset : setEntry acc p.1 p.2 = acc ++ [p] := by
      rw [setEntry, hany]
      simp
    rw [hset]
    rw [List.map_cons, List.nodup_cons] at hnd
    have hdisj' : ∀ r ∈ rest, ∀ q ∈ acc ++ [p], q.1 ≠ r.1 := by
      intro r hr q hq
      rcases List.mem_append.1 hq with hq | hq
      · exact hdisj r (List.mem_cons_of_mem _ hr) q hq
      · have hqp : q = p := by simpa using hq
        subst hqp
        intro hcontra
        exact hnd.1 (hcontra ▸ List.mem_map_of_mem Prod.fst hr)
    rw [ih (acc ++ [p]) hdisj' hnd.2, List.append_assoc]
    rfl

lemma fromEntries_eq_of_nodup (ps : List (String × String))
    (h : (ps.map Prod.fst).Nodup) : fromEntries ps = ps := by
  have := fromEntries_go ps [] (by simp) h
  simpa [fromEntries] using this

lemma manifestObject_eq_pairs (files : List UploadableFile)
    (hnd : (files.map (fun f => f.publicUrl)).Nodup) :
    manifestObject files = manifestPairs files := by
  have hkeys : ((manifestPairs files).map Prod.fst).Nodup := by
    simpa [manifestPairs, List.map_map, Function.comp] using hnd
  exact fromEntries_eq_of_nodup _ hkeys

/-! ## Manifest coverage and absence of local deduplication -/

/-- C6: for a scan result with duplicate-free public paths, the manifest
object submitted with the deployment lists exactly the path→fingerprint pair
of every scanned file (all `n` of them), while the files actually handed to
the uploader are exactly those whose fingerprint the remote diff reported
missing (the `k` missing ones). -/
theorem manifest_covers_scanned (files : List UploadableFile) (missing : List String)
    (hnd : (files.map (fun f => f.publicUrl)).Nodup) :
    manifestObject files = manifestPairs files
    ∧ (manifestObject files).length = files.length
    ∧ ((nonEmptyBuckets files missing).flatMap (·.files)).Perm
        (files.filter (fun f => missing.contains f.hash)) := by
  have h1 : manifestObject files = manifestPairs files := manifestObject_eq_pairs files hnd
  refine ⟨h1, ?_, ?_⟩
  · rw [h1, manifestPairs, List.length_map]
  · rw [nonEmptyBuckets, flatMap_filter_nonEmpty]
    exact uploadBuckets_flatMap_perm files missing

/-- Witness for C6: of two scanned files only `h2` is missing remotely; the
uploaded set is exactly that file, the manifest still lists both pairs. -/
theorem manifest_covers_scanned_witness :
    manifestObject demoScan = manifestPairs demoScan
    ∧ (manifestObject demoScan).length = demoScan.length
    ∧ ((nonEmptyBuckets demoScan demoMissing).flatMap (·.files)).Perm
        (demoScan.filter (fun f => demoMissing.contains f.hash)) :=
  manifest_covers_scanned demoScan demoMissing (by decide)

/-- C10: no local deduplication — for a fingerprint reported missing, the
files carrying it inside the upload buckets are exactly (with multiplicity)
the scanned files carrying it, so two identical-content files each occupy
their own slot and the same storage key is transmitted once per copy; and the
manifest maps each such file's public path to the shared fingerprint. -/
theorem no_local_dedup (files : List UploadableFile) (missing : List String)
    (hsh : String) (hmiss : missing.contains hsh = true)
    (hnd : (files.map (fun f => f.publicUrl)).Nodup) :
    (((uploadBuckets files missing).flatMap (·.files)).filter
        (fun f => f.hash == hsh)).Perm (files.filter (fun f => f.hash == hsh))
    ∧ ∀ f ∈ files, f.hash = hsh → (f.publicUrl, hsh) ∈ manifestObject files := by
  constructor
  · have hperm := (uploadBuckets_flatMap_perm files missing).filter
      (fun f => f.hash == hsh)
    have heq : (files.filter (fun f => missing.contains f.hash)).filter
        (fun f => f.hash == hsh) = files.filter (fun f => f.hash == hsh) := by
      rw [List.filter_filter]
      apply List.filter_congr
      intro f _
      have hmem : hsh ∈ missing := by simpa using hmiss
      cases hq : (f.hash == hsh) with
      | false => simp [hq]
      | true =>
        have h : f.hash = hsh := by simpa using hq
        simp [hq, h, hmiss, hmem]
    rw [heq] at hperm
    exact hperm
  · intro f hf hhash
    rw [manifestObject_eq_pairs files hnd, manifestPairs]
    rw [← hhash]
    exact List.mem_map_of_mem _ hf

/-- Witness for C10: two identical files (`hdup`) both reported missing are
both present among the bucketed files, and both public paths appear in the
manifest with the shared fingerprint. -/
theorem no_local_dedup_witness :
    (((uploadBuckets demoDup ["hdup"]).flatMap (·.files)).filter
        (fun f => f.hash == "hdup")).Perm (demoDup.filter (fun f => f.hash == "hdup"))
    ∧ ("/x/f.txt", "hdup") ∈ manifestObject demoDup :=
  ⟨(no_local_dedup demoDup ["hdup"] "hdup" (by decide) (by decide)).1,
   (no_local_dedup demoDup ["hdup"] "hdup" (by decide) (by decide)).2
     { absolutePath := "/d/x/f.txt", size := 4, mime := "text/plain",
       hash := "hdup", publicUrl := "/x/f.txt" } (by simp [demoDup]) rfl⟩

/-! ## The item-count overflow and the oversized-file behaviour -/

lemma bucketAccepts_full_small (fs' : List UploadableFile) :
    bucketAccepts { size := maxBucketBytes, files := fs' } smallFile = false := by
  have h : ¬ ((Bucket.mk maxBucketBytes fs').size + smallFile.size ≤ maxBucketBytes) := by
    show ¬ (maxBucketBytes + smallFile.size ≤ maxBucketBytes)
    rw [maxBucketBytes]
    decide
  rw [bucketAccepts, decide_eq_false h, Bool.false_and]

lemma bucketAccepts_small (s : Nat) (fs : List UploadableFile)
    (hcnt : fs.length ≤ 5000) (hsz : s + 1 ≤ maxBucketBytes) :
    bucketAccepts { size := s, files := fs } smallFile = true := by
  rw [bucketAccepts]
  simp only [Bool.and_eq_true, decide_eq_true_eq]
  exact ⟨hsz, hcnt⟩

lemma findSlot_cons3 (b0 b1 b2 : Bucket) (f : UploadableFile) (i : Nat) :
    findSlot [b0, b1, b2] f i
      = [0, 1, 2].find? (fun j => bucketAccepts ([b0, b1, b2].getD ((i + j) % 3) default) f) :=
  rfl

lemma findSlot_small (s : Nat) (fs : List UploadableFile) (i : Nat)
    (hcnt : fs.length ≤ 5000) (hsz : s + 1 ≤ maxBucketBytes) :
    ∃ j, findSlot [fullA, fullB, { size := s, files := fs }] smallFile i = some j
      ∧ (i + j) % 3 = 2 := by
  have hA : bucketAccepts fullA smallFile = false := bucketAccepts_full_small [bigFileA]
  have hB : bucketAccepts fullB smallFile = false := bucketAccepts_full_small [bigFileB]
  have hC : bucketAccepts { size := s, files := fs } smallFile = true :=
    bucketAccepts_small s fs hcnt hsz
  rw [findSlot_cons3]
  have h3 : i % 3 = 0 ∨ i % 3 = 1 ∨ i % 3 = 2 := by omega
  rcases h3 with hr | hr | hr
  · have e0 : (i + 0) % 3 = 0 := by omega
    have e1 : (i + 1) % 3 = 1 := by omega
    have e2 : (i + 2) % 3 = 2 := by omega
    have q0 : bucketAccepts ([fullA, fullB,
        ({ size := s, files := fs } : Bucket)].getD ((i + 0) % 3) default) smallFile
        = false := by
      rw [e0]
      exact hA
    have q1 : bucketAccepts ([fullA, fullB,
        ({ size := s, files := fs } : Bucket)].getD ((i + 1) % 3) default) smallFile
        = false := by
      rw [e1]
      exact hB
    have q2 : bucketAccepts ([fullA, fullB,
        ({ size := s, files := fs } : Bucket)].getD ((i + 2) % 3) default) smallFile
        = true := by
      rw [e2]
      exact hC
    refine ⟨2, ?_, by omega⟩
    rw [List.find?_cons_of_neg _ (by
        show ¬(bucketAccepts ([fullA, fullB,
          ({ size := s, files := fs } : Bucket)].getD ((i + 0) % 3) default) smallFile = true)
        rw [q0]
        exact Bool.false_ne_true),
      List.find?_cons_of_neg _ (by
        show ¬(bucketAccepts ([fullA, fullB,
          ({ size := s, files := fs } : Bucket)].getD ((i + 1) % 3) default) smallFile = true)
        rw [q1]
        exact Bool.false_ne_true),
      List.find?_cons_of_pos _ (by
        show bucketAccepts ([fullA, fullB,
          ({ size := s, files := fs } : Bucket)].getD ((i + 2) % 3) default) smallFile = true
        exact q2)]
  · have e0 : (i + 0) % 3 = 1 := by omega
    have e1 : (i + 1) % 3 = 2 := by omega
    have q0 : bucketAccepts ([fullA, fullB,
        ({ size := s, files := fs } : Bucket)].getD ((i + 0) % 3) default) smallFile
        = false := by
      rw [e0]
      exact hB
    have q1 : bucketAccepts ([fullA, fullB,
        ({ size := s, files := fs } : Bucket)].getD ((i + 1) % 3) default) smallFile
        = true := by
      rw [e1]
      exact hC
    refine ⟨1, ?_, by omega⟩
    rw [List.find?_cons_of_neg _ (by
        show ¬(bucketAccepts ([fullA, fullB,
          ({ size := s, files := fs } : Bucket)].getD ((i + 0) % 3) default) smallFile = true)
        rw [q0]
        exact Bool.false_ne_true),
      List.find?_cons_of_pos _ (by
        show bucketAccepts ([fullA, fullB,
          ({ size := s, files := fs } : Bucket)].getD ((i + 1) % 3) default) smallFile = true
        exact q1)]
  · have e0 : (i + 0) % 3 = 2 := by omega
    have q0 : bucketAccepts ([fullA, fullB,
        ({ size := s, files := fs } : Bucket)].getD ((i + 0) % 3) default) smallFile
        = true := by
      rw [e0]
      exact hC
    refine ⟨0, ?_, by omega⟩
    rw [List.find?_cons_of_pos _ (by
        show bucketAccepts ([fullA, fullB,
          ({ size := s, files := fs } : Bucket)].getD ((i + 0) % 3) default) smallFile = true
        exact q0)]

lemma addFile_small (i s : Nat) (fs : List UploadableFile)
    (hcnt : fs.length ≤ 5000) (hsz : s + 1 ≤ maxBucketBytes) :
    addFile [fullA, fullB, { size := s, files := fs }] i smallFile
      = [fullA, fullB, { size := s + 1, files := fs ++ [smallFile] }] := by
  obtain ⟨j, hj, hk⟩ := findSlot_small s fs i hcnt hsz
  rw [addFile, hj]
  show ([fullA, fullB, { size := s, files := fs }].set
    ((i + j) % 3)
    { size := ([fullA, fullB, ({ size := s, files := fs } : Bucket)].getD ((i + j) % 3)
        default).size + smallFile.size,
      files := ([fullA, fullB, ({ size := s, files := fs } : Bucket)].getD ((i + j) % 3)
        default).files ++ [smallFile] }) = _
  rw [hk]
  rfl

lemma foldl_smalls : ∀ (pairs : List (Nat × UploadableFile)),
    (∀ p ∈ pairs, p.2 = smallFile) →
    ∀ (s : Nat) (fs : List UploadableFile),
    fs.length + pairs.length ≤ 5001 → s + pairs.length ≤ maxBucketBytes →
    pairs.foldl stepF [fullA, fullB, { size := s, files := fs }]
      = [fullA, fullB,
         { size := s + pairs.length, files := fs ++ List.replicate pairs.length smallFile }] := by
  intro pairs
  induction pairs with
  | nil => intro _ s fs _ _; simp
  | cons p rest ih =>
    intro hall s fs hcnt hsz
    rw [List.foldl_cons]
    have hp : p.2 = smallFile := hall p (by simp)
    have hcnt' : fs.length ≤ 5000 := by
      simp only [List.length_cons] at hcnt
      omega
    have hsz' : s + 1 ≤ maxBucketBytes := by
      simp only [List.length_cons] at hsz
      omega
    have hstep : stepF [fullA, fullB, { size := s, files := fs }] p
        = [fullA, fullB, { size := s + 1, files := fs ++ [smallFile] }] := by
      rw [stepF, hp]
      exact addFile_small p.1 s fs hcnt' hsz'
    rw [hstep]
    have hla : (fs ++ [smallFile]).length = fs.length + 1 := by
      rw [List.length_append]
      rfl
    have hrec := ih (fun q hq => hall q (List.mem_cons_of_mem _ hq)) (s + 1)
      (fs ++ [smallFile])
      (by rw [hla]
          simp only [List.length_cons] at hcnt
          omega)
      (by simp only [List.length_cons] at hsz
          omega)
    rw [hrec]
    have h1 : s + 1 + rest.length = s + (p :: rest).length := by
      simp only [List.length_cons]
      omega
    have h2 : (fs ++ [smallFile]) ++ List.replicate rest.length smallFile
        = fs ++ List.replicate ((p :: rest).length) smallFile := by
      rw [List.append_assoc, List.singleton_append, List.length_cons,
        ← List.replicate_succ]
    rw [h1, h2]

lemma pack_overflow : packBuckets overflowInput
    = [fullA, fullB, { size := 5001, files := List.replicate 5001 smallFile }] := by
  rw [packBuckets, overflowInput]
  have henum : (bigFileA :: bigFileB :: List.replicate 5001 smallFile).enum
      = (0, bigFileA) :: (1, bigFileB) :: (List.replicate 5001 smallFile).enumFrom 2 := by
    rw [List.enum, List.enumFrom_cons, List.enumFrom_cons]
  rw [henum, List.foldl_cons, List.foldl_cons]
  have h1 : stepF initialBuckets (0, bigFileA) = [fullA, ⟨0, []⟩, ⟨0, []⟩] := by rfl
  have h2 : stepF [fullA, ⟨0, []⟩, ⟨0, []⟩] (1, bigFileB) = [fullA, fullB, ⟨0, []⟩] := by rfl
  rw [h1, h2]
  have hall : ∀ p ∈ (List.replicate 5001 smallFile).enumFrom 2, p.2 = smallFile :=
    fun p hp => List.eq_of_mem_replicate (snd_mem_of_mem_enumFrom _ _ _ hp)
  have hlen : ((List.replicate 5001 smallFile).enumFrom 2).length = 5001 := by
    rw [List.enumFrom_length, List.length_replicate]
  have hfold := foldl_smalls _ hall 0 []
    (by rw [hlen, List.length_nil])
    (by rw [hlen, maxBucketBytes]
        omega)
  rw [hlen] at hfold
  rw [List.nil_append, Nat.zero_add] at hfold
  exact hfold

/-- C2 counter-evidence: on a to-upload list (already in descending size
order) of 5003 files, each individually under the 50 MiB cap, the packer
produces a bucket holding 5001 files — the source's count check
`bucket.files.length <= 5000` is applied before the push, so a bucket with
exactly 5000 files still accepts one more, contradicting the stated (and
code-commented) 5000-file maximum. -/
theorem packer_item_overflow :
    ∃ b ∈ packBuckets overflowInput, 5000 < b.files.length ∧ b.files.length = 5001 := by
  have hlen : (List.replicate 5001 smallFile).length = 5001 := List.length_replicate 5001 _
  refine ⟨{ size := 5001, files := List.replicate 5001 smallFile }, ?_, ?_, ?_⟩
  · rw [pack_overflow]
    exact List.mem_cons_of_mem _ (List.mem_cons_of_mem _ (List.mem_cons_self _ _))
  · show 5000 < (List.replicate 5001 smallFile).length
    rw [hlen]
    omega
  · exact hlen

/-- C3 counter-evidence: handed a single 52428801-byte file (one byte over
the cap), the packer does not fail: no bucket accepts the file, so the
`undefined` lookup path silently appends a fourth bucket holding it, and the
returned bucket list contains a bucket whose size exceeds `maxBucketBytes`.
The packer has no error path at all (it is a total fold). -/
theorem packer_oversized_no_failure :
    packBuckets [oversizedFile]
      = [⟨0, []⟩, ⟨0, []⟩, ⟨0, []⟩, ⟨52428801, [oversizedFile]⟩]
    ∧ (∃ b ∈ packBuckets [oversizedFile], maxBucketBytes < b.size) := by
  refine ⟨rfl, ⟨⟨52428801, [oversizedFile]⟩, ?_, ?_⟩⟩
  · show (⟨52428801, [oversizedFile]⟩ : Bucket)
      ∈ [⟨0, []⟩, ⟨0, []⟩, ⟨0, []⟩, ⟨52428801, [oversizedFile]⟩]
    exact List.mem_cons_of_mem _ (List.mem_cons_of_mem _
      (List.mem_cons_of_mem _ (List.mem_cons_self _ _)))
  · show maxBucketBytes < 52428801
    rw [maxBucketBytes]
    omega

end FastCFPages
